import Mathlib

/-!
Verification of the SwissTable-style `HashMap` in
`src/collections/maps/hashmap.go` (package `maps` of ielm/neostd).

The Go code is shallowly embedded below.  Machine integers (`uint64`,
`uint16`, bytes) are modelled as `Nat` with explicit `% 2^w` wherever Go
arithmetic can wrap; Go's `int` (`size`) is modelled as `Int` because the
code can drive it negative.  A run-time panic (out-of-range slice index)
is modelled by the `Fault.panicked` outcome; the fuel needed to bound the
source's unbounded recursion (Put -> resize -> Put) is modelled by
`Fault.fuelOut`.  The `sync.RWMutex` field is elided: it carries no data
and every claim is about single-threaded functional behaviour.

The per-table SipHash hasher is deterministic once constructed
(`NewHashMapWithHasher` accepts an arbitrary `hash.Hasher`), so the
hashing pipeline `hashKey` is modelled by an arbitrary pure function
`hashF : K -> Nat` truncated to 64 bits, and the user-supplied
`comp.Comparator[K]` (`func(a, b K) int`) by `cmp : K -> K -> Int`.
-/

namespace NeoHashMap

set_option maxRecDepth 16384

/-- `bits.TrailingZeros64`, by 64 halving steps; returns 64 on input 0. -/
def tzAux : Nat → Nat → Nat :=
  Nat.rec (motive := fun _ => Nat → Nat)
    (fun _ => 0)
    (fun _ ih n => if n % 2 = 1 then 0 else 1 + ih (n / 2))

/-- Trailing-zero count of a 64-bit word (`bits.TrailingZeros64`). -/
def tz64 (n : Nat) : Nat := tzAux 64 n

/-- The constant `0x0101010101010101` from `matchGroup`/`findEmptySlot`. -/
def REP01 : Nat := 0x0101010101010101

/-- The constant `0x8080808080808080` from `matchGroup`/`findEmptySlot`. -/
def REP80 : Nat := 0x8080808080808080

/-- `2^64`, the modulus of Go `uint64` arithmetic. -/
def U64 : Nat := 0x10000000000000000

/-- The 8-byte little-endian load `*(*uint64)(unsafe.Pointer(&vec[i]))`
performed by `matchGroup` and `findEmptySlot` (little-endian, as on all
platforms the module targets: amd64/arm64). Byte `j` of the result is
`ctrl[off+j]`. -/
def load8 (ctrl : List Nat) (off : Nat) : Nat :=
  ctrl.getD off 0 +
  ctrl.getD (off + 1) 0 * 0x100 +
  ctrl.getD (off + 2) 0 * 0x10000 +
  ctrl.getD (off + 3) 0 * 0x1000000 +
  ctrl.getD (off + 4) 0 * 0x100000000 +
  ctrl.getD (off + 5) 0 * 0x10000000000 +
  ctrl.getD (off + 6) 0 * 0x1000000000000 +
  ctrl.getD (off + 7) 0 * 0x100000000000000

/-- The shared SWAR step of `matchGroup` and `findEmptySlot`:
`eq := chunk ^ (target * 0x0101010101010101)` followed by
`((eq - 0x0101010101010101) & ^eq & 0x8080808080808080) >> 7`,
all in wrapping `uint64` arithmetic. -/
def bitmaskChunk (chunk target : Nat) : Nat :=
  let eq := chunk ^^^ (target * REP01)
  ((((eq + (U64 - REP01)) % U64) &&& ((U64 - 1) ^^^ eq)) &&& REP80) >>> 7

/-- `(h *HashMap[K, V]) matchGroup(group uint64, hashByte byte) uint16`:
two 8-byte SWAR comparisons; each 64-bit bitmask is truncated to `uint16`
and or-ed in at shift `i` (`i = 0, 8`), the shift itself again performed
on `uint16`. -/
def matchGroup (ctrl : List Nat) (group : Nat) (hashByte : Nat) : Nat :=
  let bm0 := bitmaskChunk (load8 ctrl group) hashByte
  let bm8 := bitmaskChunk (load8 ctrl (group + 8)) hashByte
  (bm0 % 0x10000) ||| (((bm8 % 0x10000) <<< 8) % 0x10000)

/-- `(h *HashMap[K, V]) findEmptySlot(group uint64) int`: per 8-byte
chunk `i = 0, 8`, if the SWAR bitmask against the empty sentinel `0xFF`
is non-zero, return `i + bits.TrailingZeros64(bitmask)`, else `-1`. -/
def findEmptySlot (ctrl : List Nat) (group : Nat) : Int :=
  let bm0 := bitmaskChunk (load8 ctrl group) 0xFF
  if bm0 ≠ 0 then ((tz64 bm0 : Nat) : Int)
  else
    let bm8 := bitmaskChunk (load8 ctrl (group + 8)) 0xFF
    if bm8 ≠ 0 then ((8 + tz64 bm8 : Nat) : Int)
    else -1

/-- The ambient parameters of a constructed `HashMap[K, V]`: the Go zero
values of `K` and `V` (`*new(K)`, `var zero V`), the hashing pipeline
(`hashKey`: SipHash with per-table seeds, or any custom `hash.Hasher`
passed to `NewHashMapWithHasher` — deterministic, hence a pure function),
and the user comparator `comp.Comparator[K] = func(a, b K) int`. -/
structure HMParams (K V : Type) where
  zeroK : K
  zeroV : V
  hashF : K → Nat
  cmp : K → K → Int

/-- The mutable state of a `HashMap[K, V]`: control bytes, entry slots,
`size` (Go `int`, can go negative through `removeEntry`), `capacity`.
The `loadFactor` field is the construction-time constant 0.875 and the
mutex carries no data, so neither is stored. -/
structure HMState (K V : Type) where
  ctrl : List Nat
  entries : List (K × V)
  size : Int
  capacity : Nat

/-- How an embedded operation can fail to produce a value: a Go runtime
panic (out-of-range slice index), or exhaustion of the fuel that bounds
the source's unbounded `Put -> resize -> Put` recursion. -/
inductive Fault
  | panicked
  | fuelOut
deriving DecidableEq

/-- Result of an embedded operation. -/
abbrev Outcome (α : Type) : Type := Except Fault α

/-- `hashKey`: the hasher output reduced to a `uint64`
(`hash.HashBytesToUint64`).  SipHash is a pure function of the key bytes
once the per-table seeds are fixed. -/
def hashKey {K V : Type} (P : HMParams K V) (k : K) : Nat := P.hashF k % U64

/-- `hashToByte(hash uint64) byte = byte((hash >> 57) | 0x80)`. -/
def hashToByte (h : Nat) : Nat := (h >>> 57) ||| 0x80

/-- `compareKeys(a, b K) bool = h.comparator(a, b) == 0`. -/
def compareKeys {K V : Type} (P : HMParams K V) (a b : K) : Bool :=
  P.cmp a b == 0

/-- `group := index & ^uint64(groupSize-1)` with `groupSize = 16`. -/
def groupOf (idx : Nat) : Nat := idx &&& 0xFFFFFFFFFFFFFFF0

/-- `nextProbe(index, i uint64) = (index + i*i + i) & uint64(h.capacity-1)`. -/
def nextProbe (cap idx i : Nat) : Nat := (idx + i * i + i) &&& (cap - 1)

/-- `initializeCtrl`: control bytes `capacity + groupSize` long, all set
to the empty sentinel `0b11111111`. -/
def initCtrl (cap : Nat) : List Nat := List.replicate (cap + 16) 0xFF

/-- `initializeCtrl`: `entries = make([]entry[K, V], h.capacity)` — Go
zero values. -/
def initEntries {K V : Type} (P : HMParams K V) (cap : Nat) : List (K × V) :=
  List.replicate cap (P.zeroK, P.zeroV)

/-- The table built by `NewHashMapWithHasher` (and by `NewHashMap` when
hasher construction succeeds): `capacity = minCapacity = 8`,
`initializeCtrl`, `size = 0`. -/
def freshMap {K V : Type} (P : HMParams K V) : HMState K V :=
  ⟨initCtrl 8, initEntries P 8, 0, 8⟩

/-- `shouldResize() = h.size >= int(float64(h.capacity)*h.loadFactor)`.
`loadFactor` is always the default 0.875 = 7/8, a dyadic rational, and
every capacity is a power of two ≥ 8, so the `float64` product is the
exact integer `7*capacity/8` and Go's `int` conversion is exact. -/
def shouldResize {K V : Type} (st : HMState K V) : Bool :=
  ((7 * st.capacity / 8 : Nat) : Int) ≤ st.size

/-- The inner `for match != 0` loop shared verbatim by `Get`, `Remove`
and `findOrInsert`: take the lowest set bit of the mask as
`matchIndex = group + TrailingZeros(match)`, compare keys at
`entries[matchIndex]` (a bounds-checked Go index: out of range panics),
on equality yield the index, else clear the bit (`match &= match - 1`)
and continue.  The mask is a `uint16`, so it has at most 16 set bits and
each step clears one: fuel 16 reproduces the source loop exactly. -/
def probeMatch {K V : Type} (P : HMParams K V) (st : HMState K V) (k : K)
    (group : Nat) : Nat → Nat → Outcome (Option Nat) :=
  Nat.rec (motive := fun _ => Nat → Outcome (Option Nat))
    (fun _ => .ok none)
    (fun _ ih mask =>
      if mask = 0 then .ok none
      else
        let matchIndex := group + tz64 mask
        match st.entries[matchIndex]? with
        | none => .error .panicked
        | some e =>
          if compareKeys P e.1 k then .ok (some matchIndex)
          else ih (mask &&& (mask - 1)))

/-- One iteration of `Get`'s probe loop, with the group offset and the
`matchGroup` mask of the current iteration supplied by the loop:
mask-match via `probeMatch` (returning `entries[matchIndex].value` on a
key match), then the termination test `h.ctrl[group] == emptyByte`,
then `nextProbe` into the continuation `cont`. -/
def getStep {K V : Type} (P : HMParams K V) (st : HMState K V) (k : K)
    (group mask : Nat) (cont : Nat → Nat → Outcome (V × Bool)) (i idx : Nat) :
    Outcome (V × Bool) :=
  match probeMatch P st k group 16 mask with
  | .error f => .error f
  | .ok (some matchIndex) =>
    match st.entries[matchIndex]? with
    | none => .error .panicked
    | some e => .ok (e.2, true)
  | .ok none =>
    if st.ctrl.getD group 0 = 0xFF then .ok (P.zeroV, false)
    else cont (i + 1) (nextProbe st.capacity idx i)

/-- The probe loop of `Get`: up to `maxProbeDistance = 128` iterations
of `getStep`, each on `group = idx & ^15` and
`mask = matchGroup(group, hashByte)`.  `fuel` counts the remaining
iterations (initially 128) and `i` is the loop counter used by
`nextProbe`; falling out of the loop returns `(zero V, false)`. -/
def getLoop {K V : Type} (P : HMParams K V) (st : HMState K V) (k : K)
    (hashByte : Nat) : Nat → Nat → Nat → Outcome (V × Bool) :=
  Nat.rec (motive := fun _ => Nat → Nat → Outcome (V × Bool))
    (fun _ _ => .ok (P.zeroV, false))
    (fun _ ih i idx =>
      getStep P st k (groupOf idx) (matchGroup st.ctrl (groupOf idx) hashByte)
        ih i idx)

/-- `Get(key K) (V, bool)`. -/
def getOp {K V : Type} (P : HMParams K V) (st : HMState K V) (k : K) :
    Outcome (V × Bool) :=
  let hash := hashKey P k
  getLoop P st k (hashToByte hash) 128 0 (hash &&& (st.capacity - 1))

/-- `removeEntry(index uint64)`: read the removed value, reset the
control byte to the empty sentinel, zero the entry, decrement size. -/
def removeEntry {K V : Type} (P : HMParams K V) (st : HMState K V)
    (idx : Nat) : Outcome (V × HMState K V) :=
  match st.entries[idx]? with
  | none => .error .panicked
  | some e =>
    .ok (e.2,
      { st with
        ctrl := st.ctrl.set idx 0xFF
        entries := st.entries.set idx (P.zeroK, P.zeroV)
        size := st.size - 1 })

/-- One iteration of `Remove`'s probe loop (group offset and mask
supplied by the loop): identical to `Get`'s except that a key match
triggers `removeEntry`. -/
def removeStep {K V : Type} (P : HMParams K V) (st : HMState K V) (k : K)
    (group mask : Nat) (cont : Nat → Nat → Outcome ((V × Bool) × HMState K V))
    (i idx : Nat) : Outcome ((V × Bool) × HMState K V) :=
  match probeMatch P st k group 16 mask with
  | .error f => .error f
  | .ok (some matchIndex) =>
    match removeEntry P st matchIndex with
    | .error f => .error f
    | .ok (v, st') => .ok ((v, true), st')
  | .ok none =>
    if st.ctrl.getD group 0 = 0xFF then .ok ((P.zeroV, false), st)
    else cont (i + 1) (nextProbe st.capacity idx i)

/-- The probe loop of `Remove`: up to 128 iterations of `removeStep`. -/
def removeLoop {K V : Type} (P : HMParams K V) (st : HMState K V) (k : K)
    (hashByte : Nat) : Nat → Nat → Nat → Outcome ((V × Bool) × HMState K V) :=
  Nat.rec (motive := fun _ => Nat → Nat → Outcome ((V × Bool) × HMState K V))
    (fun _ _ => .ok ((P.zeroV, false), st))
    (fun _ ih i idx =>
      removeStep P st k (groupOf idx) (matchGroup st.ctrl (groupOf idx) hashByte)
        ih i idx)

/-- `Remove(key K) (V, bool)`. -/
def removeOp {K V : Type} (P : HMParams K V) (st : HMState K V) (k : K) :
    Outcome ((V × Bool) × HMState K V) :=
  let hash := hashKey P k
  removeLoop P st k (hashToByte hash) 128 0 (hash &&& (st.capacity - 1))

/-- One iteration of `findOrInsert`'s probe loop (group offset, mask
and `findEmptySlot` result supplied by the loop): mask-match (return
the matching index with `existed = true`), else on an empty slot write
the control byte (`h.ctrl[slotIndex] = hashByte`, a bounds-checked Go
store) and return `(slotIndex, false)`; else `nextProbe` into the
continuation. -/
def fiStep {K V : Type} (P : HMParams K V) (st : HMState K V) (k : K)
    (hashByte group mask : Nat) (emptySlot : Int)
    (cont : Nat → Nat → Outcome (Option ((Nat × Bool) × HMState K V)))
    (i idx : Nat) : Outcome (Option ((Nat × Bool) × HMState K V)) :=
  match probeMatch P st k group 16 mask with
  | .error f => .error f
  | .ok (some matchIndex) => .ok (some ((matchIndex, true), st))
  | .ok none =>
    if emptySlot ≠ -1 then
      let slotIndex := group + emptySlot.toNat
      if slotIndex < st.ctrl.length then
        .ok (some ((slotIndex, false),
          { st with ctrl := st.ctrl.set slotIndex hashByte }))
      else .error .panicked
    else cont (i + 1) (nextProbe st.capacity idx i)

/-- The probe loop of `findOrInsert`: up to 128 iterations of `fiStep`,
each on `group = idx & ^15`, `mask = matchGroup(group, hashByte)` and
`emptySlot = findEmptySlot(group)`; `none` on budget exhaustion (the
caller then resizes and retries). -/
def fiLoop {K V : Type} (P : HMParams K V) (st : HMState K V) (k : K)
    (hashByte : Nat) : Nat → Nat → Nat → Outcome (Option ((Nat × Bool) × HMState K V)) :=
  Nat.rec (motive := fun _ => Nat → Nat → Outcome (Option ((Nat × Bool) × HMState K V)))
    (fun _ _ => .ok none)
    (fun _ ih i idx =>
      fiStep P st k hashByte (groupOf idx)
        (matchGroup st.ctrl (groupOf idx) hashByte)
        (findEmptySlot st.ctrl (groupOf idx)) ih i idx)

/-- The three mutually recursive operations `Put`, `findOrInsert` and
`resize` of the source, stratified by the recursion depth (each pass
through `resize` consumes one level).  A terminating Go execution of
depth `d` is reproduced exactly by any level `> d`. -/
structure LevelFns (K V : Type) where
  putF : HMState K V → K → V → Outcome ((V × Bool) × HMState K V)
  fiF : HMState K V → Nat → K → Outcome ((Nat × Bool) × HMState K V)
  resizeF : HMState K V → Nat → Outcome (HMState K V)

/-- The replay loop of `resize`: `for i, entry := range oldEntries`,
re-`Put` every entry whose old control byte has the high bit set
(`oldCtrl[i]&0x80 != 0` — note this is also true of the empty sentinel
`0xFF`). -/
def replayAux {K V : Type}
    (putF : HMState K V → K → V → Outcome ((V × Bool) × HMState K V))
    (oldCtrl : List Nat) :
    List (K × V) → Nat → HMState K V → Outcome (HMState K V)
  | [], _, st => .ok st
  | e :: rest, i, st =>
    if oldCtrl.getD i 0 &&& 0x80 ≠ 0 then
      match putF st e.1 e.2 with
      | .error f => .error f
      | .ok (_, st') => replayAux putF oldCtrl rest (i + 1) st'
    else replayAux putF oldCtrl rest (i + 1) st

/-- `resize(newCapacity)`: reinitialise ctrl/entries at the new
capacity, zero the size, replay the old entries through the given
`Put`. -/
def resizeFn {K V : Type} (P : HMParams K V)
    (putF : HMState K V → K → V → Outcome ((V × Bool) × HMState K V))
    (st : HMState K V) (newCap : Nat) : Outcome (HMState K V) :=
  replayAux putF st.ctrl st.entries 0
    ⟨initCtrl newCap, initEntries P newCap, 0, newCap⟩

/-- Dispatch on the result of `findOrInsert`'s probe loop: a hit or an
insert is returned as is; on budget exhaustion (`none`), `resize` to
double capacity and retry the whole `findOrInsert`. -/
def fiDispatch {K V : Type}
    (resizeF : HMState K V → Nat → Outcome (HMState K V))
    (prevFi : HMState K V → Nat → K → Outcome ((Nat × Bool) × HMState K V))
    (st : HMState K V) (hash : Nat) (k : K)
    (res : Outcome (Option ((Nat × Bool) × HMState K V))) :
    Outcome ((Nat × Bool) × HMState K V) :=
  match res with
  | .error f => .error f
  | .ok (some r) => .ok r
  | .ok none =>
    match resizeF st (st.capacity * 2) with
    | .error f => .error f
    | .ok st' => prevFi st' hash k

/-- `findOrInsert(hash, key)`: run the 128-iteration probe loop from
the home bucket `hash & (capacity-1)` and dispatch on its outcome. -/
def fiFn {K V : Type} (P : HMParams K V)
    (resizeF : HMState K V → Nat → Outcome (HMState K V))
    (prevFi : HMState K V → Nat → K → Outcome ((Nat × Bool) × HMState K V))
    (st : HMState K V) (hash : Nat) (k : K) :
    Outcome ((Nat × Bool) × HMState K V) :=
  fiDispatch resizeF prevFi st hash k
    (fiLoop P st k (hashToByte hash) 128 0 (hash &&& (st.capacity - 1)))

/-- `Put(key, value)`: `resize` first when `shouldResize`, then
`findOrInsert`, then read `h.entries[index]` (a bounds-checked Go index:
the panic site), overwrite the entry and bump size if the key was new. -/
def putFn {K V : Type} (P : HMParams K V)
    (resizeF : HMState K V → Nat → Outcome (HMState K V))
    (fiF : HMState K V → Nat → K → Outcome ((Nat × Bool) × HMState K V))
    (st : HMState K V) (k : K) (v : V) : Outcome ((V × Bool) × HMState K V) :=
  match (if shouldResize st then resizeF st (st.capacity * 2) else .ok st) with
  | .error f => .error f
  | .ok st1 =>
    match fiF st1 (hashKey P k) k with
    | .error f => .error f
    | .ok ((index, existed), st2) =>
      match st2.entries[index]? with
      | none => .error .panicked
      | some old =>
        .ok ((old.2, existed),
          { st2 with
            entries := st2.entries.set index (k, v)
            size := if existed then st2.size else st2.size + 1 })

/-- Level `n+1` of `Put`/`findOrInsert`/`resize`, built from level `n`
(each pass through `resize` consumes one level). -/
def hmLevel {K V : Type} (P : HMParams K V) : Nat → LevelFns K V :=
  Nat.rec (motive := fun _ => LevelFns K V)
    ⟨fun _ _ _ => .error .fuelOut, fun _ _ _ => .error .fuelOut,
     fun _ _ => .error .fuelOut⟩
    (fun _ prev =>
      ⟨putFn P (resizeFn P prev.putF)
         (fiFn P (resizeFn P prev.putF) prev.fiF),
       fiFn P (resizeFn P prev.putF) prev.fiF,
       resizeFn P prev.putF⟩)

/-- `Put(key K, value V) (V, bool)` at recursion depth 64 (no
terminating execution of the source exceeds it in any state reachable or
considered here). -/
def putOp {K V : Type} (P : HMParams K V) (st : HMState K V) (k : K) (v : V) :
    Outcome ((V × Bool) × HMState K V) :=
  (hmLevel P 64).putF st k v

/-- The loop of `Keys()`: `for i, ctrl := range h.ctrl`, and when
`ctrl&0x80 != 0` append `h.entries[i].key` (a bounds-checked Go index:
`i` ranges over the control array, which is 16 longer than `entries`). -/
def keysLoop {K V : Type} (st : HMState K V) :
    List Nat → Nat → List K → Outcome (List K)
  | [], _, acc => .ok acc.reverse
  | c :: rest, i, acc =>
    if c &&& 0x80 ≠ 0 then
      match st.entries[i]? with
      | none => .error .panicked
      | some e => keysLoop st rest (i + 1) (e.1 :: acc)
    else keysLoop st rest (i + 1) acc

/-- `Keys() []K`. -/
def keysOp {K V : Type} (st : HMState K V) : Outcome (List K) :=
  keysLoop st st.ctrl 0 []

/-- The loop of `Values()`, same shape as `Keys()`. -/
def valuesLoop {K V : Type} (st : HMState K V) :
    List Nat → Nat → List V → Outcome (List V)
  | [], _, acc => .ok acc.reverse
  | c :: rest, i, acc =>
    if c &&& 0x80 ≠ 0 then
      match st.entries[i]? with
      | none => .error .panicked
      | some e => valuesLoop st rest (i + 1) (e.2 :: acc)
    else valuesLoop st rest (i + 1) acc

/-- `Values() []V`. -/
def valuesOp {K V : Type} (st : HMState K V) : Outcome (List V) :=
  valuesLoop st st.ctrl 0 []

/-- The loop of `ForEach(f)`: the list of `(key, value)` pairs passed to
`f`, in visit order (`f` itself is pure in the claims considered). -/
def forEachLoop {K V : Type} (st : HMState K V) :
    List Nat → Nat → List (K × V) → Outcome (List (K × V))
  | [], _, acc => .ok acc.reverse
  | c :: rest, i, acc =>
    if c &&& 0x80 ≠ 0 then
      match st.entries[i]? with
      | none => .error .panicked
      | some e => forEachLoop st rest (i + 1) (e :: acc)
    else forEachLoop st rest (i + 1) acc

/-- `ForEach(f func(K, V))`, modelled by the sequence of applications. -/
def forEachOp {K V : Type} (st : HMState K V) : Outcome (List (K × V)) :=
  forEachLoop st st.ctrl 0 []

/-- `Clear()`: size 0, capacity back to `minCapacity = 8`,
`initializeCtrl`. -/
def clearOp {K V : Type} (P : HMParams K V) (_st : HMState K V) : HMState K V :=
  ⟨initCtrl 8, initEntries P 8, 0, 8⟩

/-- `Size() int`. -/
def sizeOp {K V : Type} (st : HMState K V) : Int := st.size

/-- `IsEmpty() bool`. -/
def isEmptyOp {K V : Type} (st : HMState K V) : Bool := st.size == 0

/-- `ContainsKey(key K) bool = found of Get`. -/
def containsKeyOp {K V : Type} (P : HMParams K V) (st : HMState K V) (k : K) :
    Outcome Bool :=
  match getOp P st k with
  | .error f => .error f
  | .ok (_, found) => .ok found

/-- Run a list of `Put`s left to right (discarding results), as a test
driver would. -/
def runPuts {K V : Type} (P : HMParams K V) :
    List (K × V) → HMState K V → Outcome (HMState K V)
  | [], st => .ok st
  | (k, v) :: rest, st =>
    match putOp P st k v with
    | .error f => .error f
    | .ok (_, st') => runPuts P rest st'

/-!  ### Unfolding lemmas for the fuel-indexed loops  -/

theorem putOp_eq {K V : Type} (P : HMParams K V) (st : HMState K V)
    (k : K) (v : V) :
    putOp P st k v =
      putFn P (resizeFn P (hmLevel P 63).putF)
        (fiFn P (resizeFn P (hmLevel P 63).putF) (hmLevel P 63).fiF)
        st k v := rfl

theorem removeOp_eq {K V : Type} (P : HMParams K V) (st : HMState K V)
    (k : K) :
    removeOp P st k =
      removeLoop P st k (hashToByte (hashKey P k)) 128 0
        (hashKey P k &&& (st.capacity - 1)) := rfl

theorem getOp_eq {K V : Type} (P : HMParams K V) (st : HMState K V)
    (k : K) :
    getOp P st k =
      getLoop P st k (hashToByte (hashKey P k)) 128 0
        (hashKey P k &&& (st.capacity - 1)) := rfl

theorem probeMatch_succ {K V : Type} (P : HMParams K V) (st : HMState K V)
    (k : K) (group fuel mask : Nat) :
    probeMatch P st k group (fuel + 1) mask =
      (if mask = 0 then .ok none
       else
        match st.entries[group + tz64 mask]? with
        | none => .error .panicked
        | some e =>
          if compareKeys P e.1 k then .ok (some (group + tz64 mask))
          else probeMatch P st k group fuel (mask &&& (mask - 1))) := rfl

theorem probeMatch_mask0 {K V : Type} (P : HMParams K V) (st : HMState K V)
    (k : K) (group : Nat) : ∀ fuel, probeMatch P st k group fuel 0 = .ok none
  | 0 => rfl
  | fuel + 1 => by rw [probeMatch_succ]; simp

theorem getLoop_zero {K V : Type} (P : HMParams K V) (st : HMState K V)
    (k : K) (tag i idx : Nat) :
    getLoop P st k tag 0 i idx = .ok (P.zeroV, false) := rfl

theorem getLoop_succ {K V : Type} (P : HMParams K V) (st : HMState K V)
    (k : K) (tag fuel i idx : Nat) :
    getLoop P st k tag (fuel + 1) i idx =
      getStep P st k (groupOf idx) (matchGroup st.ctrl (groupOf idx) tag)
        (getLoop P st k tag fuel) i idx := rfl

theorem getStep_none {K V : Type} {P : HMParams K V} {st : HMState K V}
    {k : K} {g m : Nat} (i idx : Nat) (cont : Nat → Nat → Outcome (V × Bool))
    (h : probeMatch P st k g 16 m = .ok none) :
    getStep P st k g m cont i idx =
      if st.ctrl.getD g 0 = 0xFF then .ok (P.zeroV, false)
      else cont (i + 1) (nextProbe st.capacity idx i) := by
  unfold getStep
  rw [h]

theorem getStep_hit {K V : Type} {P : HMParams K V} {st : HMState K V}
    {k : K} {g m mi : Nat} {e : K × V} (i idx : Nat)
    (cont : Nat → Nat → Outcome (V × Bool))
    (h : probeMatch P st k g 16 m = .ok (some mi))
    (he : st.entries[mi]? = some e) :
    getStep P st k g m cont i idx = .ok (e.2, true) := by
  unfold getStep
  rw [h]
  simp [he]

theorem getStep_err {K V : Type} {P : HMParams K V} {st : HMState K V}
    {k : K} {g m : Nat} {f : Fault} (i idx : Nat)
    (cont : Nat → Nat → Outcome (V × Bool))
    (h : probeMatch P st k g 16 m = .error f) :
    getStep P st k g m cont i idx = .error f := by
  unfold getStep
  rw [h]

theorem removeLoop_zero {K V : Type} (P : HMParams K V) (st : HMState K V)
    (k : K) (tag i idx : Nat) :
    removeLoop P st k tag 0 i idx = .ok ((P.zeroV, false), st) := rfl

theorem removeLoop_succ {K V : Type} (P : HMParams K V) (st : HMState K V)
    (k : K) (tag fuel i idx : Nat) :
    removeLoop P st k tag (fuel + 1) i idx =
      removeStep P st k (groupOf idx) (matchGroup st.ctrl (groupOf idx) tag)
        (removeLoop P st k tag fuel) i idx := rfl

theorem removeStep_none {K V : Type} {P : HMParams K V} {st : HMState K V}
    {k : K} {g m : Nat} (i idx : Nat)
    (cont : Nat → Nat → Outcome ((V × Bool) × HMState K V))
    (h : probeMatch P st k g 16 m = .ok none) :
    removeStep P st k g m cont i idx =
      if st.ctrl.getD g 0 = 0xFF then .ok ((P.zeroV, false), st)
      else cont (i + 1) (nextProbe st.capacity idx i) := by
  unfold removeStep
  rw [h]

theorem removeStep_hit {K V : Type} {P : HMParams K V} {st : HMState K V}
    {k : K} {g m mi : Nat} {e : K × V} (i idx : Nat)
    (cont : Nat → Nat → Outcome ((V × Bool) × HMState K V))
    (h : probeMatch P st k g 16 m = .ok (some mi))
    (he : st.entries[mi]? = some e) :
    removeStep P st k g m cont i idx =
      .ok ((e.2, true),
        { st with
          ctrl := st.ctrl.set mi 0xFF
          entries := st.entries.set mi (P.zeroK, P.zeroV)
          size := st.size - 1 }) := by
  unfold removeStep removeEntry
  rw [h]
  simp [he]

theorem removeStep_err {K V : Type} {P : HMParams K V} {st : HMState K V}
    {k : K} {g m : Nat} {f : Fault} (i idx : Nat)
    (cont : Nat → Nat → Outcome ((V × Bool) × HMState K V))
    (h : probeMatch P st k g 16 m = .error f) :
    removeStep P st k g m cont i idx = .error f := by
  unfold removeStep
  rw [h]

theorem fiLoop_succ {K V : Type} (P : HMParams K V) (st : HMState K V)
    (k : K) (tag fuel i idx : Nat) :
    fiLoop P st k tag (fuel + 1) i idx =
      fiStep P st k tag (groupOf idx) (matchGroup st.ctrl (groupOf idx) tag)
        (findEmptySlot st.ctrl (groupOf idx)) (fiLoop P st k tag fuel) i idx := rfl

theorem fiStep_none {K V : Type} {P : HMParams K V} {st : HMState K V}
    {k : K} {g m : Nat} (tag i idx : Nat) (es : Int)
    (cont : Nat → Nat → Outcome (Option ((Nat × Bool) × HMState K V)))
    (h : probeMatch P st k g 16 m = .ok none) :
    fiStep P st k tag g m es cont i idx =
      (if es ≠ -1 then
        if g + es.toNat < st.ctrl.length then
          .ok (some ((g + es.toNat, false),
            { st with ctrl := st.ctrl.set (g + es.toNat) tag }))
        else .error .panicked
      else cont (i + 1) (nextProbe st.capacity idx i)) := by
  unfold fiStep
  rw [h]

theorem fiStep_hit {K V : Type} {P : HMParams K V} {st : HMState K V}
    {k : K} {g m mi : Nat} (tag i idx : Nat) (es : Int)
    (cont : Nat → Nat → Outcome (Option ((Nat × Bool) × HMState K V)))
    (h : probeMatch P st k g 16 m = .ok (some mi)) :
    fiStep P st k tag g m es cont i idx = .ok (some ((mi, true), st)) := by
  unfold fiStep
  rw [h]

theorem fiStep_err {K V : Type} {P : HMParams K V} {st : HMState K V}
    {k : K} {g m : Nat} {f : Fault} (tag i idx : Nat) (es : Int)
    (cont : Nat → Nat → Outcome (Option ((Nat × Bool) × HMState K V)))
    (h : probeMatch P st k g 16 m = .error f) :
    fiStep P st k tag g m es cont i idx = .error f := by
  unfold fiStep
  rw [h]

/-!  ### Arithmetic facts about the byte- and word-level helpers  -/

theorem tz64_one : tz64 1 = 0 := by decide

theorem tz64_256 : tz64 256 = 8 := by decide

theorem tz64_257 : tz64 257 = 0 := by decide

theorem and_255_0 : 255 &&& 0 = 0 := by decide

theorem groupOf_small : ∀ idx, idx < 16 → groupOf idx = 0 := by decide

theorem nextProbe_le7 (idx i : Nat) : nextProbe 8 idx i ≤ 7 :=
  Nat.and_le_right

theorem hashKey_lt {K V : Type} (P : HMParams K V) (k : K) :
    hashKey P k < U64 :=
  Nat.mod_lt _ (by decide)

theorem hashKey_shift_lt {K V : Type} (P : HMParams K V) (k : K) :
    hashKey P k >>> 57 < 128 := by
  rw [Nat.shiftRight_eq_div_pow]
  have h := hashKey_lt P k
  unfold U64 at h
  omega

/-- Facts about `x ||| 0x80` for a 7-bit `x`, by enumeration. -/
theorem byte_or128 : ∀ x, x < 128 →
    128 ≤ (x ||| 128) ∧ (x ||| 128) ≤ 255 ∧ (x ||| 128) &&& 127 = x ∧
    (x ||| 128) &&& 128 ≠ 0 := by decide

/-- Range and bit structure of the control tag `hashToByte(hash)`. -/
theorem hashToByte_facts {K V : Type} (P : HMParams K V) (k : K) :
    128 ≤ hashToByte (hashKey P k) ∧ hashToByte (hashKey P k) ≤ 255 ∧
    hashToByte (hashKey P k) &&& 127 = hashKey P k >>> 57 ∧
    hashToByte (hashKey P k) &&& 128 ≠ 0 :=
  byte_or128 (hashKey P k >>> 57) (hashKey_shift_lt P k)

/-- Bounded boolean universal quantifier `∀ i < n, f i`, evaluated by
iteration; used to establish the SWAR case tables by evaluation. -/
def allB (f : Nat → Bool) : Nat → Bool :=
  Nat.rec true (fun n ih => f n && ih)

theorem allB_spec (f : Nat → Bool) :
    ∀ n, allB f n = true → ∀ i, i < n → f i = true := by
  intro n
  induction n with
  | zero => intro _ i hi; exact absurd hi (Nat.not_lt_zero i)
  | succ m ih =>
    intro h i hi
    have h1 : (f m && allB f m) = true := h
    rw [Bool.and_eq_true] at h1
    rcases Nat.lt_succ_iff_lt_or_eq.mp hi with h2 | h2
    · exact ih h1.2 i h2
    · rw [h2]; exact h1.1

/-- One cell of the `matchGroup` case table: the 16-bit mask computed
over a group whose byte 0 is `c0` and whose bytes 1-15 are the empty
sentinel, compared against its closed form. -/
def maskCheck (c0 t : Nat) : Bool :=
  decide
    (((bitmaskChunk (0xFFFFFFFFFFFFFF00 + c0) t % 0x10000) |||
      (((bitmaskChunk 0xFFFFFFFFFFFFFFFF t % 0x10000) <<< 8) % 0x10000)) =
     (if t = 255 then (if c0 = 255 then 257 else 256)
      else if c0 = t then (if t = 254 then 257 else 1) else 0))

theorem maskCheck_all :
    allB (fun a => allB (fun b => maskCheck (128 + a) (128 + b)) 128) 128 = true := by
  decide

/- The value of `matchGroup`'s 16-bit mask over a group whose byte 0 is
`c0` and whose bytes 1-15 are the empty sentinel, for every control
byte `c0` and target tag `t` with the high bit set: bit 0 reports
`c0 = t`; bit 8 is a SWAR borrow artefact (set exactly when `t = 255`,
or when `c0 = t = 254`); no other bit is ever set, because the 64-bit
per-byte indicators sit at bit positions `8j` and are truncated to 16
bits.  Established by enumeration of all cases. -/
theorem maskTable : ∀ c0, c0 < 256 → ∀ t, t < 256 → 128 ≤ c0 → 128 ≤ t →
    ((bitmaskChunk (0xFFFFFFFFFFFFFF00 + c0) t % 0x10000) |||
     (((bitmaskChunk 0xFFFFFFFFFFFFFFFF t % 0x10000) <<< 8) % 0x10000)) =
    (if t = 255 then (if c0 = 255 then 257 else 256)
     else if c0 = t then (if t = 254 then 257 else 1) else 0) := by
  intro c0 _ t ht h1 h2
  have ha : c0 - 128 < 128 := by omega
  have hb : t - 128 < 128 := by omega
  have h3 := allB_spec _ 128 maskCheck_all (c0 - 128) ha
  have h4 := allB_spec _ 128 h3 (t - 128) hb
  have h5 : maskCheck c0 t = true := by
    have e1 : 128 + (c0 - 128) = c0 := by omega
    have e2 : 128 + (t - 128) = t := by omega
    rw [← e1, ← e2]
    exact h4
  exact of_decide_eq_true h5

/-- One cell of the `findEmptySlot` case table over a group whose byte 0
is `c0` and whose bytes 1-15 are the empty sentinel, compared against
its closed form. -/
def emptyCheck (c0 : Nat) : Bool :=
  decide
    ((if bitmaskChunk (0xFFFFFFFFFFFFFF00 + c0) 0xFF ≠ 0
      then ((tz64 (bitmaskChunk (0xFFFFFFFFFFFFFF00 + c0) 0xFF) : Nat) : Int)
      else if bitmaskChunk 0xFFFFFFFFFFFFFFFF 0xFF ≠ 0
        then ((8 + tz64 (bitmaskChunk 0xFFFFFFFFFFFFFFFF 0xFF) : Nat) : Int)
        else -1) =
     (if c0 = 255 then 0 else 8))

theorem emptyCheck_all : allB (fun a => emptyCheck (128 + a)) 128 = true := by
  decide

/- The value of `findEmptySlot` over a group whose byte 0 is `c0` and
whose bytes 1-15 are the empty sentinel: 0 when byte 0 is empty, else 8
(the SWAR bit offset of byte 1, not its slot index 1 — the source
returns `TrailingZeros64` of the 64-bit indicator word without dividing
by 8).  Established by enumeration. -/
theorem emptyTable : ∀ c0, c0 < 256 → 128 ≤ c0 →
    (if bitmaskChunk (0xFFFFFFFFFFFFFF00 + c0) 0xFF ≠ 0
     then ((tz64 (bitmaskChunk (0xFFFFFFFFFFFFFF00 + c0) 0xFF) : Nat) : Int)
     else if bitmaskChunk 0xFFFFFFFFFFFFFFFF 0xFF ≠ 0
       then ((8 + tz64 (bitmaskChunk 0xFFFFFFFFFFFFFFFF 0xFF) : Nat) : Int)
       else -1) =
    (if c0 = 255 then 0 else 8) := by
  intro c0 hc0 h1
  have ha : c0 - 128 < 128 := by omega
  have h3 := allB_spec _ 128 emptyCheck_all (c0 - 128) ha
  have h5 : emptyCheck c0 = true := by
    have e1 : 128 + (c0 - 128) = c0 := by omega
    rw [← e1]
    exact h3
  exact of_decide_eq_true h5

/-!  ### The invariant of reachable states

Because `findEmptySlot` returns the SWAR bit offset 8 instead of the
slot index 1 whenever byte 0 of the group is occupied, the only control
byte a successful operation ever writes at capacity 8 is byte 0 (an
insert targeting "slot 8" writes `ctrl[8]` and then panics reading
`entries[8]`).  Hence every reachable state has capacity 8, all control
bytes above 0 equal to the empty sentinel, and at most the single slot
0 occupied. -/

structure INV {K V : Type} (P : HMParams K V) (st : HMState K V) : Prop where
  cap : st.capacity = 8
  ctrlLen : st.ctrl.length = 24
  entLen : st.entries.length = 8
  tail : ∀ j, 1 ≤ j → j < 24 → st.ctrl.getD j 0 = 255
  c0hi : 128 ≤ st.ctrl.getD 0 0
  c0lo : st.ctrl.getD 0 0 ≤ 255
  emptySize : st.ctrl.getD 0 0 = 255 → st.size ≤ 0
  occ : st.ctrl.getD 0 0 ≠ 255 →
    st.ctrl.getD 0 0 ≤ 254 ∧ st.size ≤ 1 ∧
    ∃ e, st.entries[0]? = some e ∧
      st.ctrl.getD 0 0 = hashToByte (hashKey P e.1)

theorem INV.size_le {K V : Type} {P : HMParams K V} {st : HMState K V}
    (h : INV P st) : st.size ≤ 1 := by
  by_cases hc : st.ctrl.getD 0 0 = 255
  · have := h.emptySize hc
    omega
  · exact (h.occ hc).2.1

theorem INV.load8_zero {K V : Type} {P : HMParams K V} {st : HMState K V}
    (h : INV P st) :
    load8 st.ctrl 0 = 0xFFFFFFFFFFFFFF00 + st.ctrl.getD 0 0 := by
  unfold load8
  rw [h.tail 1 (by omega) (by omega), h.tail 2 (by omega) (by omega),
    h.tail 3 (by omega) (by omega), h.tail 4 (by omega) (by omega),
    h.tail 5 (by omega) (by omega), h.tail 6 (by omega) (by omega),
    h.tail 7 (by omega) (by omega)]
  omega

theorem INV.load8_eight {K V : Type} {P : HMParams K V} {st : HMState K V}
    (h : INV P st) : load8 st.ctrl 8 = 0xFFFFFFFFFFFFFFFF := by
  unfold load8
  rw [h.tail 8 (by omega) (by omega), h.tail 9 (by omega) (by omega),
    h.tail 10 (by omega) (by omega), h.tail 11 (by omega) (by omega),
    h.tail 12 (by omega) (by omega), h.tail 13 (by omega) (by omega),
    h.tail 14 (by omega) (by omega), h.tail 15 (by omega) (by omega)]

theorem INV.matchGroup_eval {K V : Type} {P : HMParams K V}
    {st : HMState K V} (h : INV P st) (t : Nat) (h1 : 128 ≤ t) (h2 : t ≤ 255) :
    matchGroup st.ctrl 0 t =
      (if t = 255 then (if st.ctrl.getD 0 0 = 255 then 257 else 256)
       else if st.ctrl.getD 0 0 = t then (if t = 254 then 257 else 1)
       else 0) := by
  have hm := maskTable (st.ctrl.getD 0 0) (by have := h.c0lo; omega) t
    (by omega) h.c0hi h1
  unfold matchGroup
  rw [show (0 : Nat) + 8 = 8 from rfl, h.load8_zero, h.load8_eight]
  exact hm

theorem INV.findEmptySlot_eval {K V : Type} {P : HMParams K V}
    {st : HMState K V} (h : INV P st) :
    findEmptySlot st.ctrl 0 =
      (if st.ctrl.getD 0 0 = 255 then 0 else 8) := by
  have he := emptyTable (st.ctrl.getD 0 0) (by have := h.c0lo; omega) h.c0hi
  unfold findEmptySlot
  rw [show (0 : Nat) + 8 = 8 from rfl, h.load8_zero, h.load8_eight]
  exact he

theorem INV.ent0 {K V : Type} {P : HMParams K V} {st : HMState K V}
    (h : INV P st) : ∃ e, st.entries[0]? = some e := by
  have h0 : 0 < st.entries.length := by rw [h.entLen]; omega
  exact ⟨st.entries[0], List.getElem?_eq_getElem h0⟩

theorem INV.ent8 {K V : Type} {P : HMParams K V} {st : HMState K V}
    (h : INV P st) : st.entries[8]? = none :=
  List.getElem?_eq_none (by rw [h.entLen])

theorem INV.idx_le7 {K V : Type} {P : HMParams K V} {st : HMState K V}
    (h : INV P st) (n : Nat) : n &&& (st.capacity - 1) ≤ 7 := by
  rw [h.cap]
  exact Nat.and_le_right

theorem INV.shouldResize_false {K V : Type} {P : HMParams K V}
    {st : HMState K V} (h : INV P st) : shouldResize st = false := by
  have hs := h.size_le
  unfold shouldResize
  rw [h.cap]
  simp only [decide_eq_false_iff_not]
  intro hle
  norm_num at hle
  omega

/-!  ### Evaluating `probeMatch` at the masks arising in reachable
states (0, 1, 256, 257) -/

theorem probeMatch_mask1 {K V : Type} (P : HMParams K V) (st : HMState K V)
    (k : K) (e : K × V) (he : st.entries[0]? = some e) :
    probeMatch P st k 0 16 1 =
      (if compareKeys P e.1 k then .ok (some 0) else .ok none) := by
  rw [probeMatch_succ, tz64_one]
  by_cases hc : compareKeys P e.1 k <;>
    simp [he, hc, probeMatch_mask0, show (1 : Nat) &&& 0 = 0 from rfl]

theorem probeMatch_mask256 {K V : Type} (P : HMParams K V)
    (st : HMState K V) (k : K) (h8 : st.entries[8]? = none) :
    probeMatch P st k 0 16 256 = .error .panicked := by
  rw [probeMatch_succ, tz64_256]
  simp [h8]

theorem probeMatch_mask257 {K V : Type} (P : HMParams K V)
    (st : HMState K V) (k : K) (e : K × V) (he : st.entries[0]? = some e)
    (h8 : st.entries[8]? = none) :
    probeMatch P st k 0 16 257 =
      (if compareKeys P e.1 k then .ok (some 0) else .error .panicked) := by
  rw [probeMatch_succ, tz64_257]
  by_cases hc : compareKeys P e.1 k
  · simp [he, hc]
  · rw [show (257 : Nat) &&& (257 - 1) = 256 from by decide] at *
    simp only [he, hc, Bool.false_eq_true, if_false, if_neg]
    rw [probeMatch_succ, tz64_256]
    simp [h8]

/-- The single `probeMatch` evaluation covering every reachable state:
a bit-0 hit compares the resident entry; the spurious bit 8 (present
when the tag is 255, or on a borrow with tag 254) reads `entries[8]`,
which is out of range at capacity 8 and panics. -/
theorem INV.probeMatch_eval {K V : Type} {P : HMParams K V}
    {st : HMState K V} (h : INV P st) (k : K) {e : K × V}
    (he : st.entries[0]? = some e) :
    probeMatch P st k 0 16
        (matchGroup st.ctrl 0 (hashToByte (hashKey P k))) =
      (if st.ctrl.getD 0 0 = hashToByte (hashKey P k) then
        (if compareKeys P e.1 k then .ok (some 0)
         else if hashToByte (hashKey P k) = 255 ∨ hashToByte (hashKey P k) = 254
           then .error .panicked
           else .ok none)
       else if hashToByte (hashKey P k) = 255 then .error .panicked
       else .ok none) := by
  have hf := hashToByte_facts P k
  rw [h.matchGroup_eval _ hf.1 hf.2.1]
  by_cases h255 : hashToByte (hashKey P k) = 255
  · rw [if_pos h255]
    by_cases hc0 : st.ctrl.getD 0 0 = hashToByte (hashKey P k)
    · rw [if_pos (by rw [hc0, h255]), if_pos hc0,
        probeMatch_mask257 P st k e he h.ent8]
      by_cases hc : compareKeys P e.1 k <;> simp [hc, h255]
    · rw [if_neg (by rw [h255] at hc0; exact hc0), if_neg hc0, if_pos h255,
        probeMatch_mask256 P st k h.ent8]
  · rw [if_neg h255]
    by_cases hc0 : st.ctrl.getD 0 0 = hashToByte (hashKey P k)
    · rw [if_pos hc0, if_pos hc0]
      by_cases h254 : hashToByte (hashKey P k) = 254
      · rw [if_pos h254, probeMatch_mask257 P st k e he h.ent8]
        by_cases hc : compareKeys P e.1 k <;> simp [hc, h254]
      · rw [if_neg h254, probeMatch_mask1 P st k e he]
        by_cases hc : compareKeys P e.1 k <;> simp [hc, h255, h254]
    · rw [if_neg hc0, if_neg hc0, if_neg h255, probeMatch_mask0]

/-!  ### The probe loops on a state whose mask never produces a
candidate: 128 identical iterations, then not-found  -/

theorem getLoop_miss {K V : Type} (P : HMParams K V) (st : HMState K V)
    (k : K) (tag : Nat) (hcap : st.capacity = 8)
    (hc : ¬ st.ctrl.getD 0 0 = 255)
    (hpm : probeMatch P st k 0 16 (matchGroup st.ctrl 0 tag) = .ok none) :
    ∀ fuel i idx, idx ≤ 7 →
      getLoop P st k tag fuel i idx = .ok (P.zeroV, false) := by
  intro fuel
  induction fuel with
  | zero => intro i idx _; exact getLoop_zero P st k tag i idx
  | succ fuel ih =>
    intro i idx hidx
    rw [getLoop_succ, groupOf_small idx (by omega),
      getStep_none i idx _ hpm, if_neg hc, hcap]
    exact ih (i + 1) (nextProbe 8 idx i) (nextProbe_le7 idx i)

theorem removeLoop_miss {K V : Type} (P : HMParams K V) (st : HMState K V)
    (k : K) (tag : Nat) (hcap : st.capacity = 8)
    (hc : ¬ st.ctrl.getD 0 0 = 255)
    (hpm : probeMatch P st k 0 16 (matchGroup st.ctrl 0 tag) = .ok none) :
    ∀ fuel i idx, idx ≤ 7 →
      removeLoop P st k tag fuel i idx = .ok ((P.zeroV, false), st) := by
  intro fuel
  induction fuel with
  | zero => intro i idx _; exact removeLoop_zero P st k tag i idx
  | succ fuel ih =>
    intro i idx hidx
    rw [removeLoop_succ, groupOf_small idx (by omega),
      removeStep_none i idx _ hpm, if_neg hc, hcap]
    exact ih (i + 1) (nextProbe 8 idx i) (nextProbe_le7 idx i)

/-!  ### Evaluating the public operations on every reachable state  -/

/-- `Get` on a reachable state: found iff the control byte equals the
key's tag and the resident entry's key compares equal; the spurious
mask bit 8 (tag 255 always, tag 254 after a bit-0 miss) panics. -/
theorem INV.getOp_eval {K V : Type} {P : HMParams K V} {st : HMState K V}
    (h : INV P st) (k : K) {e : K × V} (he : st.entries[0]? = some e) :
    getOp P st k =
      (if st.ctrl.getD 0 0 = hashToByte (hashKey P k) then
        (if compareKeys P e.1 k then .ok (e.2, true)
         else if hashToByte (hashKey P k) = 255 ∨ hashToByte (hashKey P k) = 254
           then .error .panicked
           else .ok (P.zeroV, false))
       else if hashToByte (hashKey P k) = 255 then .error .panicked
       else .ok (P.zeroV, false)) := by
  have hpm := h.probeMatch_eval k he
  have hidx0 : (hashKey P k &&& (st.capacity - 1)) < 16 := by
    have := h.idx_le7 (hashKey P k)
    omega
  rw [getOp_eq, getLoop_succ, groupOf_small _ hidx0]
  by_cases hc0 : st.ctrl.getD 0 0 = hashToByte (hashKey P k)
  · rw [if_pos hc0] at hpm ⊢
    by_cases hcmp : compareKeys P e.1 k
    · rw [if_pos hcmp] at hpm ⊢
      rw [getStep_hit 0 _ _ hpm he]
    · rw [if_neg hcmp] at hpm ⊢
      by_cases hsp : hashToByte (hashKey P k) = 255 ∨ hashToByte (hashKey P k) = 254
      · rw [if_pos hsp] at hpm ⊢
        rw [getStep_err 0 _ _ hpm]
      · rw [if_neg hsp] at hpm ⊢
        rw [getStep_none 0 _ _ hpm]
        have hc255 : ¬ st.ctrl.getD 0 0 = 255 := by
          rw [hc0]
          intro hh
          exact hsp (Or.inl hh)
        rw [if_neg hc255, h.cap]
        exact getLoop_miss P st k _ h.cap hc255 hpm 127 1 _ (nextProbe_le7 _ 0)
  · rw [if_neg hc0] at hpm ⊢
    by_cases h255 : hashToByte (hashKey P k) = 255
    · rw [if_pos h255] at hpm ⊢
      rw [getStep_err 0 _ _ hpm]
    · rw [if_neg h255] at hpm ⊢
      rw [getStep_none 0 _ _ hpm]
      by_cases hc255 : st.ctrl.getD 0 0 = 255
      · rw [if_pos hc255]
      · rw [if_neg hc255, h.cap]
        exact getLoop_miss P st k _ h.cap hc255 hpm 127 1 _ (nextProbe_le7 _ 0)

/-- `Remove` on a reachable state: a hit clears slot 0 to the sentinel
and decrements size (no tombstone); spurious mask bit 8 panics;
otherwise the state is unchanged. -/
theorem INV.removeOp_eval {K V : Type} {P : HMParams K V} {st : HMState K V}
    (h : INV P st) (k : K) {e : K × V} (he : st.entries[0]? = some e) :
    removeOp P st k =
      (if st.ctrl.getD 0 0 = hashToByte (hashKey P k) then
        (if compareKeys P e.1 k then
           .ok ((e.2, true),
             { st with
               ctrl := st.ctrl.set 0 0xFF
               entries := st.entries.set 0 (P.zeroK, P.zeroV)
               size := st.size - 1 })
         else if hashToByte (hashKey P k) = 255 ∨ hashToByte (hashKey P k) = 254
           then .error .panicked
           else .ok ((P.zeroV, false), st))
       else if hashToByte (hashKey P k) = 255 then .error .panicked
       else .ok ((P.zeroV, false), st)) := by
  have hpm := h.probeMatch_eval k he
  have hidx0 : (hashKey P k &&& (st.capacity - 1)) < 16 := by
    have := h.idx_le7 (hashKey P k)
    omega
  rw [removeOp_eq, removeLoop_succ, groupOf_small _ hidx0]
  by_cases hc0 : st.ctrl.getD 0 0 = hashToByte (hashKey P k)
  · rw [if_pos hc0] at hpm ⊢
    by_cases hcmp : compareKeys P e.1 k
    · rw [if_pos hcmp] at hpm ⊢
      rw [removeStep_hit 0 _ _ hpm he]
    · rw [if_neg hcmp] at hpm ⊢
      by_cases hsp : hashToByte (hashKey P k) = 255 ∨ hashToByte (hashKey P k) = 254
      · rw [if_pos hsp] at hpm ⊢
        rw [removeStep_err 0 _ _ hpm]
      · rw [if_neg hsp] at hpm ⊢
        rw [removeStep_none 0 _ _ hpm]
        have hc255 : ¬ st.ctrl.getD 0 0 = 255 := by
          rw [hc0]
          intro hh
          exact hsp (Or.inl hh)
        rw [if_neg hc255, h.cap]
        exact removeLoop_miss P st k _ h.cap hc255 hpm 127 1 _ (nextProbe_le7 _ 0)
  · rw [if_neg hc0] at hpm ⊢
    by_cases h255 : hashToByte (hashKey P k) = 255
    · rw [if_pos h255] at hpm ⊢
      rw [removeStep_err 0 _ _ hpm]
    · rw [if_neg h255] at hpm ⊢
      rw [removeStep_none 0 _ _ hpm]
      by_cases hc255 : st.ctrl.getD 0 0 = 255
      · rw [if_pos hc255]
      · rw [if_neg hc255, h.cap]
        exact removeLoop_miss P st k _ h.cap hc255 hpm 127 1 _ (nextProbe_le7 _ 0)

/-- `findOrInsert`'s probe loop on a reachable state. -/
theorem INV.fiLoop_eval {K V : Type} {P : HMParams K V} {st : HMState K V}
    (h : INV P st) (k : K) {e : K × V} (he : st.entries[0]? = some e) :
    fiLoop P st k (hashToByte (hashKey P k)) 128 0
        (hashKey P k &&& (st.capacity - 1)) =
      (if st.ctrl.getD 0 0 = hashToByte (hashKey P k) then
        (if compareKeys P e.1 k then .ok (some ((0, true), st))
         else if hashToByte (hashKey P k) = 255 ∨ hashToByte (hashKey P k) = 254
           then .error .panicked
           else .ok (some ((8, false),
             { st with ctrl := st.ctrl.set 8 (hashToByte (hashKey P k)) })))
       else if hashToByte (hashKey P k) = 255 then .error .panicked
       else if st.ctrl.getD 0 0 = 255 then
         .ok (some ((0, false),
           { st with ctrl := st.ctrl.set 0 (hashToByte (hashKey P k)) }))
       else .ok (some ((8, false),
         { st with ctrl := st.ctrl.set 8 (hashToByte (hashKey P k)) }))) := by
  have hpm := h.probeMatch_eval k he
  have hidx0 : (hashKey P k &&& (st.capacity - 1)) < 16 := by
    have := h.idx_le7 (hashKey P k)
    omega
  have hlen8 : (8 : Nat) < st.ctrl.length := by rw [h.ctrlLen]; omega
  have hlen0 : (0 : Nat) < st.ctrl.length := by rw [h.ctrlLen]; omega
  rw [fiLoop_succ, groupOf_small _ hidx0]
  by_cases hc0 : st.ctrl.getD 0 0 = hashToByte (hashKey P k)
  · rw [if_pos hc0] at hpm ⊢
    by_cases hcmp : compareKeys P e.1 k
    · rw [if_pos hcmp] at hpm ⊢
      rw [fiStep_hit _ 0 _ _ _ hpm]
    · rw [if_neg hcmp] at hpm ⊢
      by_cases hsp : hashToByte (hashKey P k) = 255 ∨ hashToByte (hashKey P k) = 254
      · rw [if_pos hsp] at hpm ⊢
        rw [fiStep_err _ 0 _ _ _ hpm]
      · rw [if_neg hsp] at hpm ⊢
        have hc255 : ¬ st.ctrl.getD 0 0 = 255 := by
          rw [hc0]
          intro hh
          exact hsp (Or.inl hh)
        rw [fiStep_none _ 0 _ _ _ hpm, h.findEmptySlot_eval, if_neg hc255]
        norm_num [hlen8]
        exact ⟨rfl, rfl⟩
  · rw [if_neg hc0] at hpm ⊢
    by_cases h255 : hashToByte (hashKey P k) = 255
    · rw [if_pos h255] at hpm ⊢
      rw [fiStep_err _ 0 _ _ _ hpm]
    · rw [if_neg h255] at hpm ⊢
      rw [fiStep_none _ 0 _ _ _ hpm, h.findEmptySlot_eval]
      by_cases hc255 : st.ctrl.getD 0 0 = 255
      · rw [if_pos hc255, if_pos hc255]
        norm_num [hlen0]
      · rw [if_neg hc255, if_neg hc255]
        norm_num [hlen8]
        exact ⟨rfl, rfl⟩

theorem fiFn_some {K V : Type} {P : HMParams K V}
    (rz : HMState K V → Nat → Outcome (HMState K V))
    (pf : HMState K V → Nat → K → Outcome ((Nat × Bool) × HMState K V))
    {st : HMState K V} {hash : Nat} {k : K}
    {r : (Nat × Bool) × HMState K V}
    (hl : fiLoop P st k (hashToByte hash) 128 0 (hash &&& (st.capacity - 1)) =
      .ok (some r)) :
    fiFn P rz pf st hash k = .ok r := by
  unfold fiFn
  rw [hl]
  rfl

theorem fiFn_err {K V : Type} {P : HMParams K V}
    (rz : HMState K V → Nat → Outcome (HMState K V))
    (pf : HMState K V → Nat → K → Outcome ((Nat × Bool) × HMState K V))
    {st : HMState K V} {hash : Nat} {k : K} {f : Fault}
    (hl : fiLoop P st k (hashToByte hash) 128 0 (hash &&& (st.capacity - 1)) =
      .error f) :
    fiFn P rz pf st hash k = .error f := by
  unfold fiFn
  rw [hl]
  rfl

theorem putFn_ok {K V : Type} {P : HMParams K V}
    (rz : HMState K V → Nat → Outcome (HMState K V))
    {fi : HMState K V → Nat → K → Outcome ((Nat × Bool) × HMState K V)}
    {st st2 : HMState K V} {k : K} (v : V) {idx0 : Nat} {ex : Bool}
    {old : K × V} (hsr : shouldResize st = false)
    (hfi : fi st (hashKey P k) k = .ok ((idx0, ex), st2))
    (hent : st2.entries[idx0]? = some old) :
    putFn P rz fi st k v =
      .ok ((old.2, ex),
        { st2 with
          entries := st2.entries.set idx0 (k, v)
          size := if ex then st2.size else st2.size + 1 }) := by
  unfold putFn
  rw [hsr]
  simp only [Bool.false_eq_true, if_false]
  rw [hfi]
  simp only []
  rw [hent]

theorem putFn_oob {K V : Type} {P : HMParams K V}
    (rz : HMState K V → Nat → Outcome (HMState K V))
    {fi : HMState K V → Nat → K → Outcome ((Nat × Bool) × HMState K V)}
    {st st2 : HMState K V} {k : K} (v : V) {idx0 : Nat} {ex : Bool}
    (hsr : shouldResize st = false)
    (hfi : fi st (hashKey P k) k = .ok ((idx0, ex), st2))
    (hent : st2.entries[idx0]? = none) :
    putFn P rz fi st k v = .error .panicked := by
  unfold putFn
  rw [hsr]
  simp only [Bool.false_eq_true, if_false]
  rw [hfi]
  simp only []
  rw [hent]

theorem putFn_err {K V : Type} {P : HMParams K V}
    (rz : HMState K V → Nat → Outcome (HMState K V))
    {fi : HMState K V → Nat → K → Outcome ((Nat × Bool) × HMState K V)}
    {st : HMState K V} {k : K} (v : V) {f : Fault}
    (hsr : shouldResize st = false)
    (hfi : fi st (hashKey P k) k = .error f) :
    putFn P rz fi st k v = .error f := by
  unfold putFn
  rw [hsr]
  simp only [Bool.false_eq_true, if_false]
  rw [hfi]

/-- `Put` on a reachable state: an overwrite of the resident key leaves
ctrl and size unchanged; an insert into an empty slot 0 bumps size; in
every other situation the operation panics (out-of-range `entries`
index, through the spurious mask bit 8 or through `findOrInsert`'s
slot "8" — the SWAR bit offset of the first empty byte). -/
theorem INV.putOp_eval {K V : Type} {P : HMParams K V} {st : HMState K V}
    (h : INV P st) (k : K) (v : V) {e : K × V}
    (he : st.entries[0]? = some e) :
    putOp P st k v =
      (if st.ctrl.getD 0 0 = hashToByte (hashKey P k) then
        (if compareKeys P e.1 k then
           .ok ((e.2, true),
             ⟨st.ctrl, st.entries.set 0 (k, v), st.size, st.capacity⟩)
         else .error .panicked)
       else if hashToByte (hashKey P k) = 255 then .error .panicked
       else if st.ctrl.getD 0 0 = 255 then
         .ok ((e.2, false),
           ⟨st.ctrl.set 0 (hashToByte (hashKey P k)),
            st.entries.set 0 (k, v), st.size + 1, st.capacity⟩)
       else .error .panicked) := by
  have hloop := h.fiLoop_eval k he
  have hsr := h.shouldResize_false
  rw [putOp_eq]
  by_cases hc0 : st.ctrl.getD 0 0 = hashToByte (hashKey P k)
  · rw [if_pos hc0] at hloop ⊢
    by_cases hcmp : compareKeys P e.1 k
    · rw [if_pos hcmp] at hloop ⊢
      rw [putFn_ok _ v hsr (fiFn_some _ _ hloop) he]
      simp
    · rw [if_neg hcmp] at hloop ⊢
      by_cases hsp : hashToByte (hashKey P k) = 255 ∨ hashToByte (hashKey P k) = 254
      · rw [if_pos hsp] at hloop
        rw [putFn_err _ v hsr (fiFn_err _ _ hloop)]
      · rw [if_neg hsp] at hloop
        rw [putFn_oob _ v hsr (fiFn_some _ _ hloop) h.ent8]
  · rw [if_neg hc0] at hloop ⊢
    by_cases h255 : hashToByte (hashKey P k) = 255
    · rw [if_pos h255] at hloop ⊢
      rw [putFn_err _ v hsr (fiFn_err _ _ hloop)]
    · rw [if_neg h255] at hloop ⊢
      by_cases hc255 : st.ctrl.getD 0 0 = 255
      · rw [if_pos hc255] at hloop ⊢
        rw [putFn_ok _ v hsr (fiFn_some _ _ hloop) he]
        simp
      · rw [if_neg hc255] at hloop ⊢
        rw [putFn_oob _ v hsr (fiFn_some _ _ hloop) h.ent8]

/-- States reachable from a freshly constructed table by successful
(non-panicking) mutating operations. -/
inductive Reachable {K V : Type} (P : HMParams K V) : HMState K V → Prop
  | init : Reachable P (freshMap P)
  | put {st st' : HMState K V} {k : K} {v : V} {r : V × Bool} :
      Reachable P st → putOp P st k v = .ok (r, st') → Reachable P st'
  | remove {st st' : HMState K V} {k : K} {r : V × Bool} :
      Reachable P st → removeOp P st k = .ok (r, st') → Reachable P st'
  | clear {st : HMState K V} :
      Reachable P st → Reachable P (clearOp P st)

/-!  ### The invariant holds in every reachable state  -/

theorem getD_replicate {α : Type} {n j : Nat} {a d : α} (hj : j < n) :
    (List.replicate n a).getD j d = a := by
  simp [List.getD_eq_getElem?_getD, List.getElem?_replicate, hj]

theorem inv_fresh {K V : Type} (P : HMParams K V) : INV P (freshMap P) := by
  refine ⟨rfl, by simp [freshMap, initCtrl], by simp [freshMap, initEntries],
    ?_, ?_, ?_, ?_, ?_⟩
  · intro j h1 h2
    exact getD_replicate (by omega)
  · rw [show (freshMap P).ctrl.getD 0 0 = 255 from getD_replicate (by omega)]
    omega
  · rw [show (freshMap P).ctrl.getD 0 0 = 255 from getD_replicate (by omega)]
  · intro _
    exact le_refl 0
  · intro hc
    exact absurd (getD_replicate (by omega)) hc

theorem inv_clear {K V : Type} (P : HMParams K V) (st : HMState K V) :
    INV P (clearOp P st) :=
  inv_fresh P

theorem inv_put {K V : Type} {P : HMParams K V} {st st' : HMState K V}
    {k : K} {v : V} {r : V × Bool} (h : INV P st)
    (hp : putOp P st k v = .ok (r, st')) : INV P st' := by
  obtain ⟨e, he⟩ := h.ent0
  have hf := hashToByte_facts P k
  rw [h.putOp_eval k v he] at hp
  by_cases hc0 : st.ctrl.getD 0 0 = hashToByte (hashKey P k)
  · rw [if_pos hc0] at hp
    by_cases hcmp : compareKeys P e.1 k
    · rw [if_pos hcmp] at hp
      simp only [Except.ok.injEq, Prod.mk.injEq] at hp
      obtain ⟨-, hst⟩ := hp
      subst hst
      refine ⟨h.cap, h.ctrlLen, by simp [h.entLen], h.tail, h.c0hi, h.c0lo,
        h.emptySize, ?_⟩
      intro hocc
      obtain ⟨h1, h2, e', he', _⟩ := h.occ hocc
      have h0len : 0 < st.entries.length := by rw [h.entLen]; omega
      exact ⟨h1, h2, (k, v), by simp [List.getElem?_set_self h0len],
        by rw [hc0]⟩
    · rw [if_neg hcmp] at hp
      simp at hp
  · rw [if_neg hc0] at hp
    by_cases h255 : hashToByte (hashKey P k) = 255
    · rw [if_pos h255] at hp
      simp at hp
    · rw [if_neg h255] at hp
      by_cases hc255 : st.ctrl.getD 0 0 = 255
      · rw [if_pos hc255] at hp
        simp only [Except.ok.injEq, Prod.mk.injEq] at hp
        obtain ⟨-, hst⟩ := hp
        subst hst
        have h0ctrl : 0 < st.ctrl.length := by rw [h.ctrlLen]; omega
        have h0len : 0 < st.entries.length := by rw [h.entLen]; omega
        have hc0' : (st.ctrl.set 0 (hashToByte (hashKey P k))).getD 0 0 =
            hashToByte (hashKey P k) := by
          simp [List.getD_eq_getElem?_getD, List.getElem?_set_self h0ctrl]
        refine ⟨h.cap, by simp [h.ctrlLen], by simp [h.entLen], ?_, ?_, ?_,
          ?_, ?_⟩
        · intro j h1 h2
          have hne : (0 : Nat) ≠ j := by omega
          dsimp only
          simp only [List.getD_eq_getElem?_getD, List.getElem?_set_ne hne]
          have := h.tail j h1 h2
          simpa [List.getD_eq_getElem?_getD] using this
        · dsimp only
          rw [hc0']
          exact hf.1
        · dsimp only
          rw [hc0']
          exact hf.2.1
        · dsimp only
          rw [hc0']
          intro hcon
          exact absurd hcon h255
        · intro _
          have hsz := h.emptySize hc255
          refine ⟨by dsimp only; rw [hc0']; omega, by dsimp only; omega, (k, v),
            by simp [List.getElem?_set_self h0len], by dsimp only; rw [hc0']⟩
      · rw [if_neg hc255] at hp
        simp at hp

theorem inv_remove {K V : Type} {P : HMParams K V} {st st' : HMState K V}
    {k : K} {r : V × Bool} (h : INV P st)
    (hp : removeOp P st k = .ok (r, st')) : INV P st' := by
  obtain ⟨e, he⟩ := h.ent0
  have hsz := h.size_le
  rw [h.removeOp_eval k he] at hp
  by_cases hc0 : st.ctrl.getD 0 0 = hashToByte (hashKey P k)
  · rw [if_pos hc0] at hp
    by_cases hcmp : compareKeys P e.1 k
    · rw [if_pos hcmp] at hp
      simp only [Except.ok.injEq, Prod.mk.injEq] at hp
      obtain ⟨-, hst⟩ := hp
      subst hst
      have h0ctrl : 0 < st.ctrl.length := by rw [h.ctrlLen]; omega
      have hc0' : (st.ctrl.set 0 0xFF).getD 0 0 = 255 := by
        simp [List.getD_eq_getElem?_getD, List.getElem?_set_self h0ctrl]
      refine ⟨h.cap, by simp [h.ctrlLen], by simp [h.entLen], ?_,
        by dsimp only; rw [hc0']; omega, by dsimp only; rw [hc0'], ?_, ?_⟩
      · intro j h1 h2
        have hne : (0 : Nat) ≠ j := by omega
        dsimp only
        simp only [List.getD_eq_getElem?_getD, List.getElem?_set_ne hne]
        have := h.tail j h1 h2
        simpa [List.getD_eq_getElem?_getD] using this
      · intro _
        dsimp only
        omega
      · intro hcon
        exact absurd hc0' hcon
    · rw [if_neg hcmp] at hp
      by_cases hsp : hashToByte (hashKey P k) = 255 ∨ hashToByte (hashKey P k) = 254
      · rw [if_pos hsp] at hp
        simp at hp
      · rw [if_neg hsp] at hp
        simp only [Except.ok.injEq, Prod.mk.injEq] at hp
        obtain ⟨-, hst⟩ := hp
        subst hst
        exact h
  · rw [if_neg hc0] at hp
    by_cases h255 : hashToByte (hashKey P k) = 255
    · rw [if_pos h255] at hp
      simp at hp
    · rw [if_neg h255] at hp
      simp only [Except.ok.injEq, Prod.mk.injEq] at hp
      obtain ⟨-, hst⟩ := hp
      subst hst
      exact h

/-- Every reachable state satisfies the invariant. -/
theorem reachable_inv {K V : Type} {P : HMParams K V} {st : HMState K V}
    (h : Reachable P st) : INV P st := by
  induction h with
  | init => exact inv_fresh P
  | put _ hp ih => exact inv_put ih hp
  | remove _ hp ih => exact inv_remove ih hp
  | clear _ _ => exact inv_clear P _

/-!  ### Trailing-zero and mask-candidate lemmas (for the probe-loop
termination analysis) -/

theorem tzAux_succ (fuel n : Nat) :
    tzAux (fuel + 1) n =
      (if n % 2 = 1 then 0 else 1 + tzAux fuel (n / 2)) := rfl

theorem tzAux_testBit : ∀ fuel n, 0 < n → n < 2 ^ fuel →
    Nat.testBit n (tzAux fuel n) = true := by
  intro fuel
  induction fuel with
  | zero =>
    intro n h1 h2
    norm_num at h2
    omega
  | succ fuel ih =>
    intro n h1 h2
    rw [tzAux_succ]
    by_cases ho : n % 2 = 1
    · rw [if_pos ho]
      simp [ho]
    · rw [if_neg ho, Nat.add_comm 1 (tzAux fuel (n / 2)), Nat.testBit_add_one]
      have h2' : n / 2 < 2 ^ fuel := by
        rw [Nat.pow_succ] at h2
        omega
      have h1' : 0 < n / 2 := by omega
      exact ih (n / 2) h1' h2'

theorem tz64_testBit {n : Nat} (h1 : 0 < n) (h2 : n < 2 ^ 64) :
    Nat.testBit n (tz64 n) = true :=
  tzAux_testBit 64 n h1 h2

theorem tz64_lt16 {n : Nat} (h1 : 0 < n) (h2 : n < 2 ^ 16) : tz64 n < 16 := by
  by_contra hge
  have htb := tz64_testBit h1 (lt_trans h2 (by norm_num))
  have hlt : n < 2 ^ tz64 n :=
    lt_of_lt_of_le h2 (Nat.pow_le_pow_right (by omega) (by omega))
  rw [Nat.testBit_eq_false_of_lt hlt] at htb
  exact Bool.false_ne_true htb

theorem matchGroup_lt (ctrl : List Nat) (g t : Nat) :
    matchGroup ctrl g t < 2 ^ 16 := by
  unfold matchGroup
  exact Nat.or_lt_two_pow (Nat.mod_lt _ (by norm_num))
    (Nat.mod_lt _ (by norm_num))

/-- If every set bit of the mask denotes an in-bounds slot whose key
compares unequal, the inner match loop falls through without effect. -/
theorem probeMatch_nomatch {K V : Type} (P : HMParams K V)
    (st : HMState K V) (k : K) (g : Nat) :
    ∀ fuel mask, mask < 2 ^ 16 →
    (∀ j, j < 16 → mask.testBit j = true →
      ∃ e, st.entries[g + j]? = some e ∧ compareKeys P e.1 k = false) →
    probeMatch P st k g fuel mask = .ok none := by
  intro fuel
  induction fuel with
  | zero => intro mask _ _; rfl
  | succ fuel ih =>
    intro mask hlt hcand
    rw [probeMatch_succ]
    by_cases h0 : mask = 0
    · rw [if_pos h0]
    · rw [if_neg h0]
      have hpos := Nat.pos_of_ne_zero h0
      have htb := tz64_testBit hpos (lt_trans hlt (by norm_num))
      have htz := tz64_lt16 hpos hlt
      obtain ⟨e, he, hcf⟩ := hcand (tz64 mask) htz htb
      rw [he]
      simp only [hcf, Bool.false_eq_true, if_false]
      refine ih (mask &&& (mask - 1)) ?_ ?_
      · have := @Nat.and_le_left mask (mask - 1)
        omega
      · intro j hj htbj
        rw [Nat.testBit_and] at htbj
        exact hcand j hj ((Bool.and_eq_true _ _).mp htbj).1

/-!  ### Concrete instantiations used for executions  -/

/-- `Nat`-keyed, `Nat`-valued table with the identity hash and the
subtraction comparator (`comp.GenericComparator`-style equality). -/
def idP : HMParams Nat Nat := ⟨0, 0, fun n => n, fun a b => (a : Int) - b⟩

/-- A hasher sending key 3 to a hash whose top 7 bits are all ones, so
that `hashToByte` yields the empty sentinel 0xFF as its control tag. -/
def pBadTag : HMParams Nat Nat :=
  ⟨0, 0, fun n => if n = 3 then 0xFE00000000000000 else n,
   fun a b => (a : Int) - b⟩

/-- The table obtained from a fresh map by `Put(1, 10)`. -/
def stC5 : HMState Nat Nat :=
  match putOp idP (freshMap idP) 1 10 with
  | .ok (_, s) => s
  | .error _ => freshMap idP

/-- The table obtained from a fresh map by `Put(3, 33)`. -/
def stC10 : HMState Nat Nat :=
  match putOp idP (freshMap idP) 3 33 with
  | .ok (_, s) => s
  | .error _ => freshMap idP

/-- A control array whose group 0 is `[0x81, 0x82, 0x90, 0xFF x 13]`:
occupied tags at slots 0, 1 and 2. -/
def ctrlC6A : List Nat := [0x81, 0x82, 0x90] ++ List.replicate 21 0xFF

/-- A control array whose group 0 is `[0x81, 0xFF x 15]`: slot 0
occupied, first empty byte at position 1. -/
def ctrlC6B : List Nat := [0x81] ++ List.replicate 23 0xFF

/-- Hasher for the C7 counterexample: key 15 hashes to `2^61`, whose
home bucket is 0 and whose control tag is 0x90. -/
def pC7 : HMParams Nat Nat :=
  ⟨0, 0, fun n => if n = 15 then 2 ^ 61 else n, fun a b => (a : Int) - b⟩

/-- A well-formed capacity-32 table: slot 0 holds an unrelated tag 0x81,
slots 1-15 of group 0 are empty, and key 15 (value 99, tag 0x90) is
stored at slot 16 — the first slot of the second group, as quadratic
probing would place it when group 0 reports no usable empty slot. -/
def stC7 : HMState Nat Nat :=
  ⟨[0x81] ++ List.replicate 15 0xFF ++ [0x90] ++ List.replicate 31 0xFF,
   List.replicate 16 ((0 : Nat), (0 : Nat)) ++ [(15, 99)] ++
     List.replicate 15 ((0 : Nat), (0 : Nat)),
   2, 32⟩

/-!  ### The claims  -/

/-- C1: the claim says that after `Put(k, v)` the key is found until
overwritten or removed, and that inserting any number of distinct keys
then looking them up finds every one.  The code violates it: a single
`Put(1, 10)` works and `Get 1` finds it, but the very next `Put` of a
second distinct key panics with an out-of-range `entries` index —
`findEmptySlot` returns the SWAR bit offset 8 of the first empty byte
instead of its slot index 1, and `Put` then reads `entries[8]` in a
capacity-8 table. -/
theorem c1_round_trip_broken :
    (match runPuts idP [(1, 10)] (freshMap idP) with
     | .ok st => getOp idP st 1
     | .error f => .error f) = .ok (10, true) ∧
    runPuts idP [(1, 10), (2, 20)] (freshMap idP) = .error .panicked :=
  ⟨rfl, rfl⟩

/-- C2: the claim's adversarial scenario — two keys A and B colliding
into the same group and probe chain, remove A, then `Get(B)` must still
succeed — cannot even be set up: keys 5 and 6 share group 0 of the
fresh capacity-8 table, and the insertion of the second key already
panics (out-of-range `entries[8]`).  Independently, `removeEntry`
resets the control byte straight to the empty sentinel with no
tombstone, the defect the specification itself flags. -/
theorem c2_tombstone_scenario_unreachable :
    groupOf (hashKey idP 5 &&& ((freshMap idP).capacity - 1)) =
      groupOf (hashKey idP 6 &&& ((freshMap idP).capacity - 1)) ∧
    runPuts idP [(5, 50), (6, 60)] (freshMap idP) = .error .panicked :=
  ⟨rfl, rfl⟩

/-- C3: the claim says `Keys()` and `Values()` each return exactly
`Size()` elements pairing keys with their current values.  The code
panics instead on every table, even the empty one: the loops range over
the control array (capacity + 16 bytes) and the occupancy test
`ctrl & 0x80 != 0` is also true of the empty sentinel 0xFF, so the loop
reads `entries[8]` (and beyond) out of range. -/
theorem c3_keys_values_panic :
    sizeOp (freshMap idP) = 0 ∧
    keysOp (freshMap idP) = .error .panicked ∧
    (match runPuts idP [(3, 30)] (freshMap idP) with
     | .ok st => valuesOp st
     | .error f => .error f) = .error .panicked :=
  ⟨rfl, rfl, rfl⟩

/-- C4: the claim says N distinct Puts yield `Size() = N` with the
stated capacity formula, resizing at 7 occupied slots.  In fact a fresh
table holds size 0 at capacity 8, the first Put succeeds, and the
second distinct Put panics (out-of-range `entries[8]`), so no table
with `Size() = N ≥ 2` is ever produced and the resize threshold is
unreachable. -/
theorem c4_size_capacity_broken :
    sizeOp (freshMap idP) = 0 ∧ (freshMap idP).capacity = 8 ∧
    runPuts idP [(7, 70), (4, 40)] (freshMap idP) = .error .panicked :=
  ⟨rfl, rfl, rfl⟩

/-- C5: on every reachable table, when key `k` is present with current
value `v1` (`Get k = (v1, true)`) and the comparator is reflexive,
`Put(k, v2)` returns `(v1, true)`, overwrites in place so that `Get k`
then returns `(v2, true)`, and leaves `Size()` unchanged. -/
theorem c5_put_overwrite {K V : Type} (P : HMParams K V)
    (hrefl : ∀ a, P.cmp a a = 0) (st : HMState K V) (k : K) (v1 v2 : V)
    (hre : Reachable P st) (hget : getOp P st k = .ok (v1, true)) :
    ∃ st', putOp P st k v2 = .ok ((v1, true), st') ∧
      getOp P st' k = .ok (v2, true) ∧ st'.size = st.size := by
  have h := reachable_inv hre
  obtain ⟨e, he⟩ := h.ent0
  rw [h.getOp_eval k he] at hget
  by_cases hc0 : st.ctrl.getD 0 0 = hashToByte (hashKey P k)
  case neg =>
    rw [if_neg hc0] at hget
    by_cases h255 : hashToByte (hashKey P k) = 255
    · rw [if_pos h255] at hget
      simp at hget
    · rw [if_neg h255] at hget
      simp at hget
  case pos =>
  rw [if_pos hc0] at hget
  by_cases hcmp : compareKeys P e.1 k
  case neg =>
    rw [if_neg hcmp] at hget
    by_cases hsp : hashToByte (hashKey P k) = 255 ∨ hashToByte (hashKey P k) = 254
    · rw [if_pos hsp] at hget
      simp at hget
    · rw [if_neg hsp] at hget
      simp at hget
  case pos =>
  rw [if_pos hcmp] at hget
  have hv1 : e.2 = v1 := by simpa using hget
  have hpe := h.putOp_eval k v2 he
  rw [if_pos hc0, if_pos hcmp] at hpe
  have h0len : 0 < st.entries.length := by rw [h.entLen]; omega
  refine ⟨⟨st.ctrl, st.entries.set 0 (k, v2), st.size, st.capacity⟩,
    by rw [hpe, hv1], ?_, rfl⟩
  have hS : INV P ⟨st.ctrl, st.entries.set 0 (k, v2), st.size, st.capacity⟩ :=
    inv_put h hpe
  have heS : (⟨st.ctrl, st.entries.set 0 (k, v2), st.size, st.capacity⟩ :
      HMState K V).entries[0]? = some (k, v2) :=
    List.getElem?_set_self h0len
  have hcS : (⟨st.ctrl, st.entries.set 0 (k, v2), st.size, st.capacity⟩ :
      HMState K V).ctrl.getD 0 0 = hashToByte (hashKey P k) := hc0
  have hcmpS : compareKeys P (k, v2).1 k = true := by
    simp [compareKeys, hrefl k]
  rw [hS.getOp_eval k heS, if_pos hcS, if_pos hcmpS]

/-- C5 witness: concretely, on the reachable one-key table `Put(1, 10)`
of the identity-hash `Nat` instantiation, `Put(1, 99)` returns
`(10, true)`, `Get 1` then returns `(99, true)` and the size is
unchanged. -/
theorem c5_witness :
    ∃ st', putOp idP stC5 1 99 = .ok ((10, true), st') ∧
      getOp idP st' 1 = .ok (99, true) ∧ st'.size = stC5.size :=
  c5_put_overwrite idP (fun a => sub_self (a : Int)) stC5 1 10 99
    (Reachable.put Reachable.init
      (show putOp idP (freshMap idP) 1 10 = .ok ((0, false), stC5) from rfl))
    (show getOp idP stC5 1 = .ok (10, true) from rfl)

/-- C6: the claim states `matchGroup` sets bit j iff the control byte
at `group+j` equals the target, and `findEmptySlot` returns the
position of the first empty byte (or -1).  Both fail: a target at
position 2 yields mask 0 (the per-byte indicators sit at 64-bit
positions 8j and are truncated to `uint16`, so only slots 0, 1 and 8
are visible at all); a match at position 1 is reported at bit 8; and
`findEmptySlot` reports the first empty byte at position 1 as 8 (the
bit offset, not the byte index). -/
theorem c6_matcher_contract_broken :
    (ctrlC6A.getD 2 0 = 0x90 ∧ matchGroup ctrlC6A 0 0x90 = 0) ∧
    (ctrlC6A.getD 1 0 = 0x82 ∧ ctrlC6A.getD 8 0 ≠ 0x82 ∧
      matchGroup ctrlC6A 0 0x82 = 256) ∧
    (ctrlC6B.getD 0 0 ≠ 255 ∧ ctrlC6B.getD 1 0 = 255 ∧
      findEmptySlot ctrlC6B 0 = 8) :=
  ⟨⟨rfl, rfl⟩, ⟨rfl, by decide, rfl⟩, ⟨by decide, rfl, rfl⟩⟩

/-- C7 counterexample: the claim says a `Get` probe iteration stops
with `(zero, false)` as soon as the current group contains any
empty-sentinel byte and no slot matched.  In the capacity-32 table
`stC7`, `Get 15` probes group 0 first (its base byte 0x81 is occupied
but byte 1 is the empty sentinel, and `matchGroup` yields no
candidate), yet the lookup does not stop there: it keeps probing and
returns `(99, true)` from slot 16. -/
theorem c7_counterexample :
    stC7.ctrl.getD 1 0 = 255 ∧
    matchGroup stC7.ctrl 0 (hashToByte (hashKey pC7 15)) = 0 ∧
    groupOf (hashKey pC7 15 &&& (stC7.capacity - 1)) = 0 ∧
    getOp pC7 stC7 15 = .ok (99, true) ∧
    getOp pC7 stC7 15 ≠ .ok (0, false) := by
  refine ⟨rfl, rfl, rfl, rfl, ?_⟩
  intro hcon
  rw [show getOp pC7 stC7 15 = .ok (99, true) from rfl] at hcon
  exact absurd (Except.ok.inj hcon) (by decide)

/-- C7 (amended): during a `Get` probe iteration, if the control byte
at the group's base offset (`ctrl[group]`) is the empty sentinel and no
mask candidate in the group matches the key, `Get` terminates at that
iteration — for every remaining fuel, including none — and returns
`(zero, false)`.  The loop stops at the first group whose base byte is
empty, not at the first group containing any empty byte. -/
theorem c7_get_stops_at_base_byte {K V : Type} (P : HMParams K V)
    (st : HMState K V) (k : K) (i idx fuel : Nat)
    (hbase : st.ctrl.getD (groupOf idx) 0 = 0xFF)
    (hmask : ∀ j, j < 16 →
      (matchGroup st.ctrl (groupOf idx)
        (hashToByte (hashKey P k))).testBit j = true →
      ∃ e, st.entries[groupOf idx + j]? = some e ∧
        compareKeys P e.1 k = false) :
    getLoop P st k (hashToByte (hashKey P k)) (fuel + 1) i idx =
      .ok (P.zeroV, false) := by
  rw [getLoop_succ,
    getStep_none i idx _
      (probeMatch_nomatch P st k (groupOf idx) 16 _
        (matchGroup_lt st.ctrl (groupOf idx) (hashToByte (hashKey P k)))
        hmask),
    if_pos hbase]

/-- C7 witness: on the fresh identity-hash table, looking up the absent
key 2 terminates at its very first probe iteration (no fuel left for
further probing) with `(0, false)`: the base byte of group 0 is the
empty sentinel and the mask has no candidates. -/
theorem c7_witness :
    getLoop idP (freshMap idP) 2 (hashToByte (hashKey idP 2)) 1 0 2 =
      .ok (0, false) :=
  c7_get_stops_at_base_byte idP (freshMap idP) 2 0 2 0 rfl
    (fun j _ htb => by
      rw [show matchGroup (freshMap idP).ctrl (groupOf 2)
            (hashToByte (hashKey idP 2)) = 0 from rfl] at htb
      simp at htb)

/-- C8: the claim says every operation other than construction is total
— absence is reported through the found-boolean and no operation
panics.  The code violates it three ways: `Values()` (like `Keys()` and
`ForEach`) panics on every table including the empty one;
`ContainsKey`/`Get` of a key whose hash tag collides with the empty
sentinel panics on the empty table (the 0xFF tag matches the sentinel
bytes and the spurious mask bit 8 reads `entries[8]`); and the second
distinct `Put` panics. -/
theorem c8_operations_panic :
    valuesOp (freshMap idP) = .error .panicked ∧
    containsKeyOp pBadTag (freshMap pBadTag) 3 = .error .panicked ∧
    putOp pBadTag (freshMap pBadTag) 3 7 = .error .panicked :=
  ⟨rfl, rfl, rfl⟩

/-- C9: the claim says every `entries[i]` read performed by `Keys`,
`Values`, `ForEach` and resize's replay loop stays below capacity.  The
three iteration methods violate it: they iterate over the control
array, which is 16 bytes longer than `entries`, and the `ctrl & 0x80`
test also accepts the empty sentinel, so on the fresh table (`ctrl`
length 24, `entries` length 8) the iteration reads `entries[8]` out of
range and panics. -/
theorem c9_entries_out_of_bounds :
    (freshMap idP).ctrl.length = 24 ∧ (freshMap idP).entries.length = 8 ∧
    forEachOp (freshMap idP) = .error .panicked :=
  ⟨rfl, rfl, rfl⟩

/-- C10: in every reachable state (with a reflexive comparator), every
control byte is the empty sentinel or an occupied tag with the high bit
set, distinct from the sentinel, whose index holds a live entry: the
entry's hash's top 7 bits equal the control byte's low 7 bits, and
`Get` on the entry's key returns its value. -/
theorem c10_ctrl_invariant {K V : Type} (P : HMParams K V)
    (hrefl : ∀ a, P.cmp a a = 0) (st : HMState K V) (hre : Reachable P st) :
    ∀ i, i < st.ctrl.length →
      st.ctrl.getD i 0 = 255 ∨
      (st.ctrl.getD i 0 &&& 128 ≠ 0 ∧ st.ctrl.getD i 0 ≠ 255 ∧
        ∃ e, st.entries[i]? = some e ∧
          hashKey P e.1 >>> 57 = st.ctrl.getD i 0 &&& 127 ∧
          getOp P st e.1 = .ok (e.2, true)) := by
  have h := reachable_inv hre
  intro i hi
  rcases Nat.eq_zero_or_pos i with rfl | hpos
  · by_cases hc255 : st.ctrl.getD 0 0 = 255
    · exact Or.inl hc255
    · right
      obtain ⟨hle, hsz, e, he, htag⟩ := h.occ hc255
      have hf := hashToByte_facts P e.1
      refine ⟨by rw [htag]; exact hf.2.2.2, hc255, e, he,
        by rw [htag]; exact hf.2.2.1.symm, ?_⟩
      rw [h.getOp_eval e.1 he, if_pos htag,
        if_pos (show compareKeys P e.1 e.1 = true by
          simp [compareKeys, hrefl e.1])]
  · exact Or.inl (h.tail i hpos (by rw [h.ctrlLen] at hi; exact hi))

/-- C10 witness: the invariant instantiated at index 0 of the reachable
one-key table `Put(3, 33)`: the control byte 0x80 is occupied, distinct
from the sentinel, the resident entry is `(3, 33)`, its hash's top 7
bits (0) equal the low 7 bits of the tag, and `Get 3` returns
`(33, true)`. -/
theorem c10_witness :
    stC10.ctrl.getD 0 0 = 255 ∨
    (stC10.ctrl.getD 0 0 &&& 128 ≠ 0 ∧ stC10.ctrl.getD 0 0 ≠ 255 ∧
      ∃ e, stC10.entries[0]? = some e ∧
        hashKey idP e.1 >>> 57 = stC10.ctrl.getD 0 0 &&& 127 ∧
        getOp idP stC10 e.1 = .ok (e.2, true)) :=
  c10_ctrl_invariant idP (fun a => sub_self (a : Int)) stC10
    (Reachable.put Reachable.init
      (show putOp idP (freshMap idP) 3 33 = .ok ((0, false), stC10) from rfl))
    0 (by decide)

end NeoHashMap

